import Mathlib

/-!
# gcron: the named job registry (`g/os/gcron/gcron_cron.go`)

A shallow embedding of the `Cron` manager object and of its public operations,
followed by the properties of the registry that are proved about it.

The manager holds pointers to `Entry` objects that it shares with the trigger
engine.  Pointers are modelled as references into an explicit heap, and every
invocation of an `Entry` capability is recorded in a trace, so that statements
such as "no capability is invoked" or "invoked once, in argument order" are
statements about the trace.
-/

namespace Gcron

/-! ## Basic types -/

/-- A pointer to an `Entry` (`*Entry`). -/
abbrev EntryRef := Nat

/-- Identity of a job function (`func()`); job bodies are never run by the registry. -/
abbrev Job := Nat

/-- A `time.Time` instant of the Go standard library, as nanoseconds since the epoch. -/
structure Time where
  unixNano : Int
deriving DecidableEq, Repr

/-- `Time.Nanosecond()`: the nanosecond offset within the second, in `0 .. 999999999`. -/
def Time.Nanosecond (t : Time) : Int := t.unixNano % 1000000000

/-- `Time.Before(u)`: the instant `t` is strictly earlier than `u`. -/
def Time.Before (t u : Time) : Prop := t.unixNano < u.unixNano

instance (t u : Time) : Decidable (t.Before u) := by
  unfold Time.Before; exact inferInstance

/-- Modelled from the spec: the four status constants are declared outside
`gcron_cron.go`.  The spec names the states READY, RUNNING, STOPPED and CLOSED; their
values are those of the comment on the field `Cron.status`: `0` not running yet
(ready), `1` running, `2` stopped, `-1` closed. -/
def STATUS_READY : Int := 0

/-- Modelled from the spec: status value `1`, running (see `STATUS_READY`). -/
def STATUS_RUNNING : Int := 1

/-- Modelled from the spec: status value `2`, stopped (see `STATUS_READY`). -/
def STATUS_STOPPED : Int := 2

/-- Modelled from the spec: status value `-1`, closed (see `STATUS_READY`). -/
def STATUS_CLOSED : Int := -1

/-- Modelled from the spec: the `Entry` type is declared outside `gcron_cron.go`.
The spec gives it a name, a registration timestamp, a running/stopped/closed
sub-state, a singleton flag and a remaining-run counter; the pattern and the job
it was constructed from are kept as well. -/
structure Entry where
  Name : String
  Time : Time
  status : Int
  singleton : Bool
  times : Int
  pattern : String
  job : Job
deriving DecidableEq, Repr

/-- The capabilities of an `Entry` that the registry invokes. -/
inductive Call where
  | Start
  | Stop
  | Close
  | SetSingleton (enabled : Bool)
  | SetTimes (times : Int)
deriving DecidableEq, Repr

/-- Modelled from the spec: the bodies of `Entry.Start`, `Entry.Stop`, `Entry.Close`,
`Entry.SetSingleton` and `Entry.SetTimes` are outside `gcron_cron.go`.  Each one acts
on the entry's own sub-state only: `Start`/`Stop`/`Close` set the running/stopped/closed
sub-state, `SetSingleton` the singleton flag, `SetTimes` the run counter. -/
def Call.apply : Call → Entry → Entry
  | .Start, e => { e with status := STATUS_RUNNING }
  | .Stop, e => { e with status := STATUS_STOPPED }
  | .Close, e => { e with status := STATUS_CLOSED }
  | .SetSingleton b, e => { e with singleton := b }
  | .SetTimes n, e => { e with times := n }

/-- Modelled from the spec: the closed-state accessor of an `Entry`. -/
def Entry.IsClosed (e : Entry) : Prop := e.status = STATUS_CLOSED

instance (e : Entry) : Decidable e.IsClosed := by
  unfold Entry.IsClosed; exact inferInstance

/-- The manager object `Cron`.  `entries` is the `gmap.StringInterfaceMap` from job
name to `*Entry`; a Go map has one value per key, which `AList` has by construction. -/
structure Cron where
  idGen : Int
  status : Int
  entries : AList (fun _ : String => EntryRef)
  logPath : String
  logLevel : Int

/-- A registration request captured by a one-shot timer callback
(the closures that the `DelayAdd*` functions hand to `gtimer.AddOnce`). -/
inductive Deferred where
  | Add (pattern : String) (job : Job) (name : List String)
  | AddSingleton (pattern : String) (job : Job) (name : List String)
  | AddOnce (pattern : String) (job : Job) (name : List String)
  | AddTimes (pattern : String) (times : Int) (job : Job) (name : List String)
deriving DecidableEq, Repr

/-- The memory the operations run in: the manager object, the heap of `Entry` objects
it points into (`next` is the next free address), the trace of capability invocations,
and the callbacks registered with the timer (delay in nanoseconds, request). -/
structure State where
  cron : Cron
  heap : EntryRef → Entry
  next : EntryRef
  trace : List (EntryRef × Call)
  timers : List (Int × Deferred)

/-- Declarations that `gcron_cron.go` uses and that are made elsewhere: the constant
`gDEFAULT_TIMES`, the constant `glog.LEVEL_PROD`, the pattern check of the trigger
engine (`none` when the pattern is accepted, the error otherwise) and the text of the
name synthesised from a counter value. -/
structure Deps where
  gDEFAULT_TIMES : Int
  LEVEL_PROD : Int
  checkPattern : String → Option String
  genName : Int → String

/-- Invoke capability `k` on the entry at `r`: the entry is updated in place and the
invocation is appended to the trace. -/
def invoke (s : State) (r : EntryRef) (k : Call) : State :=
  { s with heap := Function.update s.heap r (k.apply (s.heap r)),
           trace := s.trace ++ [(r, k)] }

/-- Invoke `k` on each of the given entries, from left to right. -/
def invokeAll (k : Call) (s : State) (rs : List EntryRef) : State :=
  rs.foldl (fun st r => invoke st r k) s

/-- The values of the entry map, in the order of the underlying list. -/
def Cron.values (c : Cron) : List EntryRef := c.entries.entries.map Sigma.snd

/-! ## The sorted array used by `Entries` -/

namespace SortedArray

/-- Modelled from the spec: the binary-search loop of the sorted-insertion structure
(`garray`, outside `gcron_cron.go`).  It probes the middle of `min .. max` with the
comparator: a negative result moves `max` below the probe, a positive one moves `min`
above it, zero stops.  It returns the last probe and the last comparison; `none` stands
for an index out of range.  `fuel` bounds the number of iterations. -/
def binLoop {α : Type} (compareFunc : α → α → Int) (array : List α) (value : α) :
    Nat → Int → Int → Int → Int → Option (Int × Int)
  | 0, _, _, mid, cmp => some (mid, cmp)
  | fuel + 1, min, max, mid, cmp =>
    if min ≤ max then
      let mid := (min + max) / 2
      if mid < 0 then none else
      match array.get? mid.toNat with
      | none => none
      | some x =>
        let cmp := compareFunc value x
        if cmp < 0 then binLoop compareFunc array value fuel min (mid - 1) mid cmp
        else if cmp > 0 then binLoop compareFunc array value fuel (mid + 1) max mid cmp
        else some (mid, cmp)
    else some (mid, cmp)

/-- Modelled from the spec: binary search of the sorted-insertion structure.  On an empty
array it returns index `-1`; otherwise the loop runs over `0 .. len - 1`. -/
def binSearch {α : Type} (compareFunc : α → α → Int) (array : List α) (value : α) :
    Option (Int × Int) :=
  if array.length = 0 then some (-1, -2)
  else binLoop compareFunc array value array.length 0 ((array.length : Int) - 1) 0 (-2)

/-- Modelled from the spec: insertion of one value into the sorted-insertion structure.
The value is appended when the array is empty, and otherwise placed at the index found
by the binary search, after the probed element when the value compared greater. -/
def add1 {α : Type} (compareFunc : α → α → Int) (array : List α) (value : α) :
    Option (List α) :=
  match binSearch compareFunc array value with
  | none => none
  | some (index, cmp) =>
    if index < 0 then some (array ++ [value])
    else
      let index := if cmp > 0 then index + 1 else index
      if index.toNat ≤ array.length then
        some (array.take index.toNat ++ value :: array.drop index.toNat)
      else none

/-- Modelled from the spec: `SortedArray.Add(values...)`, which inserts the values one
after the other. -/
def Add {α : Type} (compareFunc : α → α → Int) (array : List α) (values : List α) :
    Option (List α) :=
  values.foldlM (add1 compareFunc) array

end SortedArray

/-! ## The operations of `gcron_cron.go` -/

/-- Function `New`: a manager with status `RUNNING`, no entries, an empty log path and
the production log level. -/
def New (d : Deps) : Cron :=
  { idGen := 0,
    status := STATUS_RUNNING,
    entries := ∅,
    logPath := "",
    logLevel := d.LEVEL_PROD }

/-- Method `Cron.SetLogPath`. -/
def Cron.SetLogPath (s : State) (path : String) : State :=
  { s with cron := { s.cron with logPath := path } }

/-- Method `Cron.GetLogPath`. -/
def Cron.GetLogPath (s : State) : String := s.cron.logPath

/-- Method `Cron.SetLogLevel`. -/
def Cron.SetLogLevel (s : State) (level : Int) : State :=
  { s with cron := { s.cron with logLevel := level } }

/-- Method `Cron.GetLogLevel`. -/
def Cron.GetLogLevel (s : State) : Int := s.cron.logLevel

/-- Method `Cron.Search`: the entry stored under `name`, `none` for Go's `nil`. -/
def Cron.Search (s : State) (name : String) : Option EntryRef :=
  s.cron.entries.lookup name

/-- Method `Cron.Size`: the number of entries in the map. -/
def Cron.Size (s : State) : Int := (s.cron.entries.entries.length : Int)

/-- One increment of the 64-bit counter `idGen`, wrapping as a machine integer does. -/
def idNext (x : Int) : Int := (x + 1 + 2 ^ 63) % 2 ^ 64 - 2 ^ 63

/-- Modelled from the spec: `Cron.addEntry` is outside `gcron_cron.go`.  The trigger engine
checks the pattern and its error is returned with nothing inserted; otherwise the name is
the first supplied one or is synthesised from the next counter value, a fresh `Entry` is
constructed with the given singleton flag and run count and the registration time `now`,
and it is stored in the map under its name. -/
def Cron.addEntry (d : Deps) (s : State) (now : Time) (pattern : String) (job : Job)
    (singleton : Bool) (times : Int) (name : List String) : Except String EntryRef × State :=
  match d.checkPattern pattern with
  | some err => (.error err, s)
  | none =>
    let idGen := match name with
      | _ :: _ => s.cron.idGen
      | [] => idNext s.cron.idGen
    let entryName := match name with
      | n :: _ => n
      | [] => d.genName idGen
    let entry : Entry :=
      { Name := entryName, Time := now, status := STATUS_RUNNING,
        singleton := singleton, times := times, pattern := pattern, job := job }
    (.ok s.next,
     { s with cron := { s.cron with idGen := idGen,
                                    entries := s.cron.entries.insert entryName s.next },
              heap := Function.update s.heap s.next entry,
              next := s.next + 1 })

/-- The error text of `Add` for a name that is already registered. -/
def dupError (name : String) : String := "cron job \"" ++ name ++ "\" already exists"

/-- Method `Cron.Add`. -/
def Cron.Add (d : Deps) (s : State) (now : Time) (pattern : String) (job : Job)
    (name : List String) : Except String EntryRef × State :=
  match name with
  | n :: _ =>
    if Cron.Search s n ≠ none then (.error (dupError n), s)
    else Cron.addEntry d s now pattern job false d.gDEFAULT_TIMES name
  | [] => Cron.addEntry d s now pattern job false d.gDEFAULT_TIMES name

/-- Method `Cron.AddSingleton`. -/
def Cron.AddSingleton (d : Deps) (s : State) (now : Time) (pattern : String) (job : Job)
    (name : List String) : Except String EntryRef × State :=
  match Cron.Add d s now pattern job name with
  | (.error err, s1) => (.error err, s1)
  | (.ok entry, s1) => (.ok entry, invoke s1 entry (.SetSingleton true))

/-- Method `Cron.AddOnce`. -/
def Cron.AddOnce (d : Deps) (s : State) (now : Time) (pattern : String) (job : Job)
    (name : List String) : Except String EntryRef × State :=
  match Cron.Add d s now pattern job name with
  | (.error err, s1) => (.error err, s1)
  | (.ok entry, s1) => (.ok entry, invoke s1 entry (.SetTimes 1))

/-- Method `Cron.AddTimes`. -/
def Cron.AddTimes (d : Deps) (s : State) (now : Time) (pattern : String) (times : Int)
    (job : Job) (name : List String) : Except String EntryRef × State :=
  match Cron.Add d s now pattern job name with
  | (.error err, s1) => (.error err, s1)
  | (.ok entry, s1) => (.ok entry, invoke s1 entry (.SetTimes times))

/-- The single use of the timer: `gtimer.AddOnce(delay, callback)` registers the callback. -/
def timerAddOnce (s : State) (delay : Int) (cb : Deferred) : State :=
  { s with timers := s.timers ++ [(delay, cb)] }

/-- Method `Cron.DelayAdd`. -/
def Cron.DelayAdd (s : State) (delay : Int) (pattern : String) (job : Job)
    (name : List String) : State :=
  timerAddOnce s delay (.Add pattern job name)

/-- Method `Cron.DelayAddSingleton`. -/
def Cron.DelayAddSingleton (s : State) (delay : Int) (pattern : String) (job : Job)
    (name : List String) : State :=
  timerAddOnce s delay (.AddSingleton pattern job name)

/-- Method `Cron.DelayAddOnce`. -/
def Cron.DelayAddOnce (s : State) (delay : Int) (pattern : String) (job : Job)
    (name : List String) : State :=
  timerAddOnce s delay (.AddOnce pattern job name)

/-- Method `Cron.DelayAddTimes`. -/
def Cron.DelayAddTimes (s : State) (delay : Int) (pattern : String) (times : Int)
    (job : Job) (name : List String) : State :=
  timerAddOnce s delay (.AddTimes pattern times job name)

/-- The loop `for _, v := range name` of `Cron.Start` and `Cron.Stop`: each name is
looked up and the capability `k` is invoked on the entry found, if any. -/
def forNames (k : Call) : State → List String → State
  | s, [] => s
  | s, v :: rest =>
    match Cron.Search s v with
    | some entry => forNames k (invoke s entry k) rest
    | none => forNames k s rest

/-- Method `Cron.Start`. -/
def Cron.Start (s : State) (name : List String) : State :=
  if name.length > 0 then forNames .Start s name
  else { s with cron := { s.cron with status := STATUS_READY } }

/-- Method `Cron.Stop`. -/
def Cron.Stop (s : State) (name : List String) : State :=
  if name.length > 0 then forNames .Stop s name
  else { s with cron := { s.cron with status := STATUS_STOPPED } }

/-- Method `Cron.Remove`. -/
def Cron.Remove (s : State) (name : String) : State :=
  match s.cron.entries.lookup name with
  | some v => invoke s v .Close
  | none => s

/-- Method `Cron.Close`. -/
def Cron.Close (s : State) : State :=
  { s with cron := { s.cron with status := STATUS_CLOSED } }

/-- The comparator that `Cron.Entries` gives to the sorted array: `1` when the first
entry's `Time.Nanosecond()` is greater than the second's, `-1` in every other case. -/
def entriesCompare (heap : EntryRef → Entry) (v1 v2 : EntryRef) : Int :=
  if (heap v1).Time.Nanosecond > (heap v2).Time.Nanosecond then 1 else -1

/-- Method `Cron.Entries`.  `iter` is the order in which `range m` visits the values of
the map (Go leaves it unspecified); every value is added to a sorted array, whose
content is then copied out.  `none` stands for a run-time panic. -/
def Cron.Entries (s : State) (iter : List EntryRef) : Option (List EntryRef) :=
  iter.foldlM (fun array v => SortedArray.Add (entriesCompare s.heap) array [v]) []

/-- A visiting order of the map: some rearrangement of its values. -/
def IsIterOrder (s : State) (iter : List EntryRef) : Prop :=
  iter.Perm s.cron.values

instance (s : State) (iter : List EntryRef) : Decidable (IsIterOrder s iter) := by
  unfold IsIterOrder; exact inferInstance

/-! ## The callbacks of the deferred registrations -/

/-- The call that a registered callback makes when the timer runs it. -/
def Deferred.call (d : Deps) (s : State) (now : Time) :
    Deferred → Except String EntryRef × State
  | .Add pattern job name => Cron.Add d s now pattern job name
  | .AddSingleton pattern job name => Cron.AddSingleton d s now pattern job name
  | .AddOnce pattern job name => Cron.AddOnce d s now pattern job name
  | .AddTimes pattern times job name => Cron.AddTimes d s now pattern times job name

/-- The body of the callbacks of `DelayAdd`, `DelayAddSingleton`, `DelayAddOnce` and
`DelayAddTimes`, run in the state `s` at the clock reading `now`: the call is made and,
when it returns an error, the callback panics with it.  The first component is the
value of the panic, if any, the second the state the call leaves. -/
def Deferred.fire (d : Deps) (s : State) (now : Time) : Deferred → Option String × State
  | .Add pattern job name =>
    match Cron.Add d s now pattern job name with
    | (.error err, s1) => (some err, s1)
    | (.ok _, s1) => (none, s1)
  | .AddSingleton pattern job name =>
    match Cron.AddSingleton d s now pattern job name with
    | (.error err, s1) => (some err, s1)
    | (.ok _, s1) => (none, s1)
  | .AddOnce pattern job name =>
    match Cron.AddOnce d s now pattern job name with
    | (.error err, s1) => (some err, s1)
    | (.ok _, s1) => (none, s1)
  | .AddTimes pattern times job name =>
    match Cron.AddTimes d s now pattern times job name with
    | (.error err, s1) => (some err, s1)
    | (.ok _, s1) => (none, s1)

/-! ## The public API as a transition system -/

/-- One call of the public API, with its arguments.  `now` is the clock reading taken by
the call, `iter` the order in which the map is visited. -/
inductive Op where
  | SetLogPath (path : String)
  | GetLogPath
  | SetLogLevel (level : Int)
  | GetLogLevel
  | Add (now : Time) (pattern : String) (job : Job) (name : List String)
  | AddSingleton (now : Time) (pattern : String) (job : Job) (name : List String)
  | AddOnce (now : Time) (pattern : String) (job : Job) (name : List String)
  | AddTimes (now : Time) (pattern : String) (times : Int) (job : Job) (name : List String)
  | DelayAdd (delay : Int) (pattern : String) (job : Job) (name : List String)
  | DelayAddSingleton (delay : Int) (pattern : String) (job : Job) (name : List String)
  | DelayAddOnce (delay : Int) (pattern : String) (job : Job) (name : List String)
  | DelayAddTimes (delay : Int) (pattern : String) (times : Int) (job : Job)
      (name : List String)
  | Search (name : String)
  | Start (name : List String)
  | Stop (name : List String)
  | Remove (name : String)
  | Close
  | Size
  | Entries (iter : List EntryRef)
deriving DecidableEq, Repr

/-- The state after one API call.  The calls that only read (`GetLogPath`, `GetLogLevel`,
`Search`, `Size`, `Entries`) write nothing in the source and return the state as it was. -/
def step (d : Deps) (s : State) : Op → State
  | .SetLogPath path => Cron.SetLogPath s path
  | .GetLogPath => s
  | .SetLogLevel level => Cron.SetLogLevel s level
  | .GetLogLevel => s
  | .Add now pattern job name => (Cron.Add d s now pattern job name).2
  | .AddSingleton now pattern job name => (Cron.AddSingleton d s now pattern job name).2
  | .AddOnce now pattern job name => (Cron.AddOnce d s now pattern job name).2
  | .AddTimes now pattern times job name => (Cron.AddTimes d s now pattern times job name).2
  | .DelayAdd delay pattern job name => Cron.DelayAdd s delay pattern job name
  | .DelayAddSingleton delay pattern job name => Cron.DelayAddSingleton s delay pattern job name
  | .DelayAddOnce delay pattern job name => Cron.DelayAddOnce s delay pattern job name
  | .DelayAddTimes delay pattern times job name =>
      Cron.DelayAddTimes s delay pattern times job name
  | .Search _ => s
  | .Start name => Cron.Start s name
  | .Stop name => Cron.Stop s name
  | .Remove name => Cron.Remove s name
  | .Close => Cron.Close s
  | .Size => s
  | .Entries _ => s

/-- The state after a sequence of API calls. -/
def run (d : Deps) (s : State) (ops : List Op) : State := ops.foldl (step d) s

/-! ## Concrete states used in examples -/

/-- Dependencies for the examples: every pattern is accepted, names are `gcron-N`. -/
def deps0 : Deps :=
  { gDEFAULT_TIMES := 2147483647, LEVEL_PROD := 0,
    checkPattern := fun _ => none,
    genName := fun n => "gcron-" ++ toString n }

/-- An entry with the given name and registration time, sub-state running. -/
def mkEntry (name : String) (t : Int) : Entry :=
  { Name := name, Time := ⟨t⟩, status := STATUS_RUNNING, singleton := false,
    times := 2147483647, pattern := "* * * * * *", job := 0 }

/-- A freshly created manager in an empty memory. -/
def state0 : State :=
  { cron := New deps0, heap := fun _ => mkEntry "" 0, next := 0, trace := [], timers := [] }

/-- A manager with two entries: "a", registered at 1.9 s after the epoch, and "b",
registered at 2.1 s after the epoch. -/
def state2 : State :=
  { cron := { New deps0 with
      entries := ((∅ : AList (fun _ : String => EntryRef)).insert "a" 0).insert "b" 1 },
    heap := fun r => if r = 0 then mkEntry "a" 1900000000 else mkEntry "b" 2100000000,
    next := 2, trace := [], timers := [] }

/-- Dependencies for the examples in which the trigger engine rejects the empty pattern. -/
def depsStrict : Deps :=
  { deps0 with checkPattern := fun p => if p = "" then some "invalid pattern" else none }

/-- A manager with two entries registered one second apart, "a" at 1.5 s and "b" at
2.5 s after the epoch: their timestamps differ and their `Nanosecond()` is the same. -/
def stateTie : State :=
  { cron := { New deps0 with
      entries := ((∅ : AList (fun _ : String => EntryRef)).insert "a" 0).insert "b" 1 },
    heap := fun r => if r = 0 then mkEntry "a" 1500000000 else mkEntry "b" 2500000000,
    next := 2, trace := [], timers := [] }

/-- A manager with two entries that carry one and the same registration time: "a" and
"b", both registered at 1.5 s after the epoch. -/
def stateSame : State :=
  { cron := { New deps0 with
      entries := ((∅ : AList (fun _ : String => EntryRef)).insert "a" 0).insert "b" 1 },
    heap := fun r => if r = 0 then mkEntry "a" 1500000000 else mkEntry "b" 1500000000,
    next := 2, trace := [], timers := [] }

/-! ## Basic facts about `invoke` and the name loop -/

theorem invoke_cron (s : State) (r : EntryRef) (k : Call) : (invoke s r k).cron = s.cron := rfl

theorem Search_invoke (s : State) (r : EntryRef) (k : Call) (n : String) :
    Cron.Search (invoke s r k) n = Cron.Search s n := rfl

theorem invokeAll_cron (k : Call) (rs : List EntryRef) (s : State) :
    (invokeAll k s rs).cron = s.cron := by
  induction rs generalizing s with
  | nil => rfl
  | cons r rs ih => simp only [invokeAll, List.foldl_cons] at ih ⊢; rw [ih]; rfl

theorem invokeAll_trace (k : Call) (rs : List EntryRef) (s : State) :
    (invokeAll k s rs).trace = s.trace ++ rs.map (fun r => (r, k)) := by
  induction rs generalizing s with
  | nil => simp [invokeAll]
  | cons r rs ih =>
    simp only [invokeAll, List.foldl_cons] at ih ⊢
    rw [ih]; simp [invoke]

theorem invokeAll_next_timers (k : Call) (rs : List EntryRef) (s : State) :
    (invokeAll k s rs).next = s.next ∧ (invokeAll k s rs).timers = s.timers := by
  induction rs generalizing s with
  | nil => exact ⟨rfl, rfl⟩
  | cons r rs ih =>
    simp only [invokeAll, List.foldl_cons] at ih ⊢
    exact ⟨(ih _).1, (ih _).2⟩

theorem invokeAll_heap_other (k : Call) (rs : List EntryRef) (s : State) (r : EntryRef)
    (h : r ∉ rs) : (invokeAll k s rs).heap r = s.heap r := by
  induction rs generalizing s with
  | nil => rfl
  | cons x rs ih =>
    simp only [List.mem_cons, not_or] at h
    simp only [invokeAll, List.foldl_cons] at ih ⊢
    rw [ih _ h.2]
    simp [invoke, Function.update, h.1]

theorem forNames_eq (k : Call) (name : List String) (s : State) :
    forNames k s name = invokeAll k s (name.filterMap (Cron.Search s)) := by
  induction name generalizing s with
  | nil => rfl
  | cons v rest ih =>
    cases hv : Cron.Search s v with
    | none =>
      simp only [forNames, hv, List.filterMap_cons]
      exact ih s
    | some e =>
      simp only [forNames, hv, List.filterMap_cons]
      rw [ih (invoke s e k)]
      rfl

/-! ## Status is written by three calls only -/

theorem addEntry_status (d : Deps) (s : State) (now : Time) (pattern : String) (job : Job)
    (singleton : Bool) (times : Int) (name : List String) :
    (Cron.addEntry d s now pattern job singleton times name).2.cron.status = s.cron.status := by
  unfold Cron.addEntry
  cases d.checkPattern pattern <;> rfl

theorem Add_status (d : Deps) (s : State) (now : Time) (pattern : String) (job : Job)
    (name : List String) :
    (Cron.Add d s now pattern job name).2.cron.status = s.cron.status := by
  unfold Cron.Add
  cases name with
  | nil => exact addEntry_status ..
  | cons n rest =>
    by_cases h : Cron.Search s n ≠ none
    · simp only [if_pos h]
    · simp only [if_neg h]; exact addEntry_status ..

theorem AddSingleton_status (d : Deps) (s : State) (now : Time) (pattern : String) (job : Job)
    (name : List String) :
    (Cron.AddSingleton d s now pattern job name).2.cron.status = s.cron.status := by
  have h := Add_status d s now pattern job name
  unfold Cron.AddSingleton
  rcases hA : Cron.Add d s now pattern job name with ⟨res, s1⟩
  rw [hA] at h
  cases res <;> exact h

theorem AddOnce_status (d : Deps) (s : State) (now : Time) (pattern : String) (job : Job)
    (name : List String) :
    (Cron.AddOnce d s now pattern job name).2.cron.status = s.cron.status := by
  have h := Add_status d s now pattern job name
  unfold Cron.AddOnce
  rcases hA : Cron.Add d s now pattern job name with ⟨res, s1⟩
  rw [hA] at h
  cases res <;> exact h

theorem AddTimes_status (d : Deps) (s : State) (now : Time) (pattern : String) (times : Int)
    (job : Job) (name : List String) :
    (Cron.AddTimes d s now pattern times job name).2.cron.status = s.cron.status := by
  have h := Add_status d s now pattern job name
  unfold Cron.AddTimes
  rcases hA : Cron.Add d s now pattern job name with ⟨res, s1⟩
  rw [hA] at h
  cases res <;> exact h

theorem forNames_status (k : Call) (s : State) (name : List String) :
    (forNames k s name).cron.status = s.cron.status := by
  rw [forNames_eq, invokeAll_cron]

theorem Remove_cron (s : State) (name : String) : (Cron.Remove s name).cron = s.cron := by
  unfold Cron.Remove
  cases s.cron.entries.lookup name <;> rfl

/-- Every call other than `Start()` and `Stop()` without names and `Close()` leaves the
status as it was. -/
theorem step_status (d : Deps) (s : State) (op : Op)
    (h1 : op ≠ .Start []) (h2 : op ≠ .Stop []) (h3 : op ≠ .Close) :
    (step d s op).cron.status = s.cron.status := by
  cases op with
  | Add now pattern job name => exact Add_status ..
  | AddSingleton now pattern job name => exact AddSingleton_status ..
  | AddOnce now pattern job name => exact AddOnce_status ..
  | AddTimes now pattern times job name => exact AddTimes_status ..
  | Start name =>
    cases name with
    | nil => exact absurd rfl h1
    | cons v rest =>
      have e : Cron.Start s (v :: rest) = forNames .Start s (v :: rest) := by
        simp [Cron.Start]
      simp only [step, e, forNames_status]
  | Stop name =>
    cases name with
    | nil => exact absurd rfl h2
    | cons v rest =>
      have e : Cron.Stop s (v :: rest) = forNames .Stop s (v :: rest) := by
        simp [Cron.Stop]
      simp only [step, e, forNames_status]
  | Remove name => simp only [step, Remove_cron]
  | Close => exact absurd rfl h3
  | _ => rfl

/-! ## The sorted array: insertion keeps every element -/

namespace SortedArray

/-- The loop never leaves the array: started inside `0 .. len - 1`, it returns a probe in
that range. -/
theorem binLoop_in_range {α : Type} (compareFunc : α → α → Int) (array : List α) (value : α)
    (fuel : Nat) : ∀ (min max mid cmp : Int), 0 ≤ min → max < array.length →
      0 ≤ mid → mid < array.length →
      ∃ m c, binLoop compareFunc array value fuel min max mid cmp = some (m, c) ∧
        0 ≤ m ∧ m < array.length := by
  induction fuel with
  | zero => intro min max mid cmp _ _ h3 h4; exact ⟨mid, cmp, rfl, h3, h4⟩
  | succ fuel ih =>
    intro min max mid cmp h1 h2 h3 h4
    rw [binLoop]
    by_cases hle : min ≤ max
    · have hm0 : 0 ≤ (min + max) / 2 := by omega
      have hm1 : (min + max) / 2 < array.length := by omega
      have hlt : ((min + max) / 2).toNat < array.length := by omega
      simp only [if_pos hle, if_neg (not_lt.mpr hm0), List.get?_eq_getElem?,
        List.getElem?_eq_getElem hlt]
      by_cases hneg : compareFunc value array[((min + max) / 2).toNat] < 0
      · simp only [if_pos hneg]
        exact ih min ((min + max) / 2 - 1) ((min + max) / 2) _ h1 (by omega) hm0 hm1
      · simp only [if_neg hneg]
        by_cases hpos : compareFunc value array[((min + max) / 2).toNat] > 0
        · simp only [if_pos hpos]
          exact ih ((min + max) / 2 + 1) max ((min + max) / 2) _ (by omega) h2 hm0 hm1
        · simp only [if_neg hpos]
          exact ⟨_, _, rfl, hm0, hm1⟩
    · simp only [if_neg hle]
      exact ⟨mid, cmp, rfl, h3, h4⟩

/-- One insertion succeeds and places the value at some position of the array. -/
theorem add1_inserts {α : Type} (compareFunc : α → α → Int) (array : List α) (value : α) :
    ∃ i, i ≤ array.length ∧
      add1 compareFunc array value = some (array.take i ++ value :: array.drop i) := by
  unfold add1 binSearch
  by_cases hlen : array.length = 0
  · have : array = [] := List.length_eq_zero.mp hlen
    subst this
    exact ⟨0, le_refl _, rfl⟩
  · have hpos : (0 : Int) < array.length := by omega
    obtain ⟨m, c, hmc, hm0, hm1⟩ := binLoop_in_range compareFunc array value array.length
      0 ((array.length : Int) - 1) 0 (-2) (le_refl _) (by omega) (le_refl _) hpos
    simp only [if_neg hlen, hmc, if_neg (not_lt.mpr hm0)]
    by_cases hc : c > 0
    · have hle : (m + 1).toNat ≤ array.length := by omega
      simp only [if_pos hc, if_pos hle]
      exact ⟨(m + 1).toNat, hle, rfl⟩
    · have hle : m.toNat ≤ array.length := by omega
      simp only [if_neg hc, if_pos hle]
      exact ⟨m.toNat, hle, rfl⟩

/-- One insertion succeeds and its result is a rearrangement of the value and the array. -/
theorem add1_perm {α : Type} (compareFunc : α → α → Int) (array : List α) (value : α) :
    ∃ out, add1 compareFunc array value = some out ∧ out.Perm (value :: array) := by
  obtain ⟨i, _, hi⟩ := add1_inserts compareFunc array value
  refine ⟨_, hi, ?_⟩
  have h1 : (array.take i ++ value :: array.drop i).Perm
      (value :: (array.take i ++ array.drop i)) := List.perm_middle
  rwa [List.take_append_drop] at h1

/-- `Add` with a single value is one insertion. -/
theorem Add_singleton {α : Type} (compareFunc : α → α → Int) (array : List α) (value : α) :
    Add compareFunc array [value] = add1 compareFunc array value := by
  simp [Add]

end SortedArray

/-- Adding the visited values one by one to the sorted array never fails and yields a
rearrangement of what was there and what was visited. -/
theorem Entries_fold_perm (heap : EntryRef → Entry) (iter : List EntryRef) :
    ∀ acc : List EntryRef,
      ∃ out, iter.foldlM (fun array v => SortedArray.Add (entriesCompare heap) array [v]) acc
          = some out ∧ out.Perm (acc ++ iter) := by
  induction iter with
  | nil => intro acc; exact ⟨acc, rfl, by simp⟩
  | cons v rest ih =>
    intro acc
    obtain ⟨mid, hmid, hperm⟩ := SortedArray.add1_perm (entriesCompare heap) acc v
    obtain ⟨out, hout, hperm2⟩ := ih mid
    refine ⟨out, ?_, ?_⟩
    · rw [List.foldlM_cons, SortedArray.Add_singleton, hmid]
      exact hout
    · refine hperm2.trans ?_
      have : (mid ++ rest).Perm ((v :: acc) ++ rest) := List.Perm.append_right rest hperm
      refine this.trans ?_
      simp only [List.cons_append]
      exact (List.perm_middle).symm

/-! ## The sorted array: insertion keeps the order of the keys -/

namespace SortedArray

/-- On an array sorted by the key `k`, with a comparator that answers `1` when the key of
the value is greater and `-1` otherwise, the loop ends at the insertion point: every
element before it has a smaller key than the value, every element from it on has a key
at least as large. -/
theorem binLoop_finds_insertion_point {α : Type} (k : α → Int) (compareFunc : α → α → Int)
    (hc : ∀ a b, compareFunc a b = if k a > k b then 1 else -1)
    (array : List α) (value : α) (hs : array.Pairwise (fun a b => k a ≤ k b))
    (fuel : Nat) : ∀ (min max mid cmp : Int) (lo hi : Nat),
      (lo : Int) = min → (hi : Int) = max + 1 → lo ≤ hi → hi ≤ array.length →
      hi - lo ≤ fuel →
      (∀ a ∈ array.take lo, k a < k value) → (∀ b ∈ array.drop hi, k value ≤ k b) →
      ((cmp < 0 ∧ max = mid - 1 ∧ min ≤ mid) ∨ (cmp > 0 ∧ min = mid + 1) ∨ min ≤ max) →
      ∃ (m c : Int) (i : Nat),
        binLoop compareFunc array value fuel min max mid cmp = some (m, c) ∧
        (i : Int) = (if c > 0 then m + 1 else m) ∧ i ≤ array.length ∧
        (∀ a ∈ array.take i, k a < k value) ∧ (∀ b ∈ array.drop i, k value ≤ k b) := by
  have exit : ∀ (min max mid cmp : Int) (lo hi : Nat),
      (lo : Int) = min → (hi : Int) = max + 1 → lo ≤ hi → hi ≤ array.length →
      ¬ min ≤ max →
      (∀ a ∈ array.take lo, k a < k value) → (∀ b ∈ array.drop hi, k value ≤ k b) →
      ((cmp < 0 ∧ max = mid - 1 ∧ min ≤ mid) ∨ (cmp > 0 ∧ min = mid + 1) ∨ min ≤ max) →
      ∃ (i : Nat), (i : Int) = (if cmp > 0 then mid + 1 else mid) ∧ i ≤ array.length ∧
        (∀ a ∈ array.take i, k a < k value) ∧ (∀ b ∈ array.drop i, k value ≤ k b) := by
    intro min max mid cmp lo hi hlo hhi hle hlen hgt hlow hupp hK
    have hlh : lo = hi := by omega
    subst hlh
    refine ⟨lo, ?_, hlen, hlow, hupp⟩
    rcases hK with ⟨h1, h2, h3⟩ | ⟨h1, h2⟩ | h
    · rw [if_neg (by omega)]; omega
    · rw [if_pos h1]; omega
    · exact absurd h hgt
  induction fuel with
  | zero =>
    intro min max mid cmp lo hi hlo hhi hle hlen hfuel hlow hupp hK
    obtain ⟨i, h⟩ := exit min max mid cmp lo hi hlo hhi hle hlen (by omega) hlow hupp hK
    exact ⟨mid, cmp, i, rfl, h⟩
  | succ fuel ih =>
    intro min max mid cmp lo hi hlo hhi hle hlen hfuel hlow hupp hK
    rw [binLoop]
    by_cases hmm : min ≤ max
    · have hm0 : 0 ≤ (min + max) / 2 := by omega
      have hlt : ((min + max) / 2).toNat < array.length := by omega
      simp only [if_pos hmm, if_neg (not_lt.mpr hm0), List.get?_eq_getElem?,
        List.getElem?_eq_getElem hlt]
      have hsplit := List.pairwise_append.mp
        (by rw [List.take_append_drop]; exact hs :
          (array.take ((min + max) / 2).toNat ++ array.drop ((min + max) / 2).toNat).Pairwise
            (fun a b => k a ≤ k b))
      have hdrop := List.drop_eq_getElem_cons hlt
      have hx : array[((min + max) / 2).toNat] ∈ array.drop ((min + max) / 2).toNat := by
        rw [hdrop]; exact List.mem_cons_self _ _
      by_cases hgt : k value > k array[((min + max) / 2).toNat]
      · have hcv : compareFunc value array[((min + max) / 2).toNat] = 1 := by
          rw [hc, if_pos hgt]
        simp only [hcv, if_neg (by decide : ¬ (1 : Int) < 0), if_pos (by decide : (1 : Int) > 0)]
        refine ih ((min + max) / 2 + 1) max ((min + max) / 2) 1
          (((min + max) / 2).toNat + 1) hi (by omega) hhi (by omega) hlen (by omega)
          ?_ hupp (Or.inr (Or.inl ⟨by decide, rfl⟩))
        intro a ha
        rw [List.take_succ, List.getElem?_eq_getElem hlt] at ha
        simp only [Option.toList_some, List.mem_append, List.mem_singleton] at ha
        rcases ha with ha | rfl
        · exact lt_of_le_of_lt (hsplit.2.2 a ha _ hx) hgt
        · exact hgt
      · have hcv : compareFunc value array[((min + max) / 2).toNat] = -1 := by
          rw [hc, if_neg hgt]
        simp only [hcv, if_pos (by decide : (-1 : Int) < 0)]
        refine ih min ((min + max) / 2 - 1) ((min + max) / 2) (-1)
          lo ((min + max) / 2).toNat hlo (by omega) (by omega) (by omega) (by omega)
          hlow ?_ (Or.inl ⟨by decide, rfl, by omega⟩)
        intro b hb
        rw [hdrop] at hb
        rcases List.mem_cons.mp hb with rfl | hb
        · exact not_lt.mp hgt
        · have hp := (List.pairwise_cons.mp (hdrop ▸ hsplit.2.1)).1 b hb
          exact le_trans (not_lt.mp hgt) hp
    · simp only [if_neg hmm]
      obtain ⟨i, h⟩ := exit min max mid cmp lo hi hlo hhi hle hlen hmm hlow hupp hK
      exact ⟨mid, cmp, i, rfl, h⟩

/-- One insertion into an array sorted by the key `k`, with a comparator that answers `1`
when the key of the value is greater and `-1` otherwise, succeeds and gives an array
sorted by `k`. -/
theorem add1_keeps_sorted {α : Type} (k : α → Int) (compareFunc : α → α → Int)
    (hc : ∀ a b, compareFunc a b = if k a > k b then 1 else -1)
    (array : List α) (value : α) (hs : array.Pairwise (fun a b => k a ≤ k b)) :
    ∃ out, add1 compareFunc array value = some out ∧
      out.Pairwise (fun a b => k a ≤ k b) := by
  by_cases hlen : array.length = 0
  · have : array = [] := List.length_eq_zero.mp hlen
    subst this
    exact ⟨[value], rfl, List.pairwise_singleton _ _⟩
  · have hpos : (0 : Int) < array.length := by omega
    obtain ⟨m, c, i, hmc, hi, hile, hlow, hupp⟩ :=
      binLoop_finds_insertion_point k compareFunc hc array value hs array.length
        0 ((array.length : Int) - 1) 0 (-2) 0 array.length rfl (by omega) (Nat.zero_le _)
        (le_refl _) (by omega) (by simp) (by simp) (Or.inr (Or.inr (by omega)))
    obtain ⟨m2, c2, hmc2, hm0, _⟩ := binLoop_in_range compareFunc array value array.length
      0 ((array.length : Int) - 1) 0 (-2) (le_refl _) (by omega) (le_refl _) hpos
    rw [hmc] at hmc2
    have hm : m = m2 := (Prod.mk.inj (Option.some.inj hmc2)).1
    subst hm
    have hsorted : (array.take i ++ value :: array.drop i).Pairwise
        (fun a b => k a ≤ k b) := by
      refine List.pairwise_append.mpr ⟨hs.sublist (List.take_sublist _ _), ?_, ?_⟩
      · exact List.pairwise_cons.mpr ⟨hupp, hs.sublist (List.drop_sublist _ _)⟩
      · intro a ha b hb
        rcases List.mem_cons.mp hb with rfl | hb
        · exact le_of_lt (hlow a ha)
        · exact le_trans (le_of_lt (hlow a ha)) (hupp b hb)
    unfold add1 binSearch
    simp only [if_neg hlen, hmc, if_neg (not_lt.mpr hm0)]
    by_cases hcp : c > 0
    · have hidx : (m + 1).toNat = i := by rw [if_pos hcp] at hi; omega
      simp only [if_pos hcp, hidx, if_pos hile]
      exact ⟨_, rfl, hsorted⟩
    · have hidx : m.toNat = i := by rw [if_neg hcp] at hi; omega
      simp only [if_neg hcp, hidx, if_pos hile]
      exact ⟨_, rfl, hsorted⟩

end SortedArray

/-- Adding the visited values one by one keeps the array sorted by `Time.Nanosecond()`. -/
theorem Entries_fold_sorted (heap : EntryRef → Entry) (iter : List EntryRef) :
    ∀ acc : List EntryRef,
      acc.Pairwise (fun a b => (heap a).Time.Nanosecond ≤ (heap b).Time.Nanosecond) →
      ∃ out, iter.foldlM (fun array v => SortedArray.Add (entriesCompare heap) array [v]) acc
          = some out ∧
        out.Pairwise (fun a b => (heap a).Time.Nanosecond ≤ (heap b).Time.Nanosecond) := by
  induction iter with
  | nil => intro acc hacc; exact ⟨acc, rfl, hacc⟩
  | cons v rest ih =>
    intro acc hacc
    obtain ⟨mid, hmid, hsorted⟩ := SortedArray.add1_keeps_sorted
      (fun r => (heap r).Time.Nanosecond) (entriesCompare heap) (fun _ _ => rfl) acc v hacc
    obtain ⟨out, hout, hso⟩ := ih mid hsorted
    refine ⟨out, ?_, hso⟩
    rw [List.foldlM_cons, SortedArray.Add_singleton, hmid]
    exact hout

/-- The value of `Time.Nanosecond()` lies in `0 .. 999999999`. -/
theorem Nanosecond_range (t : Time) : 0 ≤ t.Nanosecond ∧ t.Nanosecond ≤ 999999999 := by
  unfold Time.Nanosecond
  omega

/-! ## The deferred callbacks -/

theorem fire_eq_call (d : Deps) (s : State) (now : Time) (cb : Deferred) :
    Deferred.fire d s now cb =
      (match (Deferred.call d s now cb).1 with
        | .error err => some err
        | .ok _ => none, (Deferred.call d s now cb).2) := by
  cases cb <;> simp only [Deferred.fire, Deferred.call] <;> split <;> simp_all

/-! ## The claims -/


/-- C1: when the name `n` is already present in the entry map, `Add(pattern, job, n)`
returns no entry and the duplicate-name error, and the registry is left as it was:
the whole state is unchanged, so `Size()` is the same, `Search(n)` still returns the
original entry, and nothing is constructed in the heap or inserted in the map. -/
theorem Add_duplicate_name_rejected (d : Deps) (s : State) (now : Time) (pattern : String)
    (job : Job) (n : String) (rest : List String) (e : EntryRef)
    (h : Cron.Search s n = some e) :
    (Cron.Add d s now pattern job (n :: rest)).1 = .error (dupError n) ∧
    (Cron.Add d s now pattern job (n :: rest)).2 = s ∧
    Cron.Size (Cron.Add d s now pattern job (n :: rest)).2 = Cron.Size s ∧
    Cron.Search (Cron.Add d s now pattern job (n :: rest)).2 n = some e ∧
    (Cron.Add d s now pattern job (n :: rest)).2.cron.entries = s.cron.entries ∧
    (Cron.Add d s now pattern job (n :: rest)).2.next = s.next := by
  have hA : Cron.Add d s now pattern job (n :: rest) = (.error (dupError n), s) := by
    simp [Cron.Add, h]
  rw [hA]
  exact ⟨rfl, rfl, rfl, h, rfl, rfl⟩

/-- Witness for C1: the name "a" is present in `state2`, and adding it again fails. -/
theorem Add_duplicate_name_rejected_witness :
    Cron.Search state2 "a" = some 0 ∧
    (Cron.Add deps0 state2 ⟨3000000000⟩ "* * * * * *" 7 ["a"]).1 = .error (dupError "a") ∧
    (Cron.Add deps0 state2 ⟨3000000000⟩ "* * * * * *" 7 ["a"]).2 = state2 :=
  ⟨by decide,
   (Add_duplicate_name_rejected deps0 state2 ⟨3000000000⟩ "* * * * * *" 7 "a" [] 0
      (by decide)).1,
   (Add_duplicate_name_rejected deps0 state2 ⟨3000000000⟩ "* * * * * *" 7 "a" [] 0
      (by decide)).2.1⟩

/-- C2 fails on the code: in `state2` the entry "a" (address 0) was registered at 1.9 s
and the entry "b" (address 1) at 2.1 s, so "a" is the earlier one; yet whichever way the
map is visited, `Entries()` returns "b" before "a", because the comparator reads only
the nanosecond within the second (900000000 for "a", 100000000 for "b"). -/
theorem Entries_orders_by_nanosecond_not_by_timestamp :
    (state2.heap 0).Time.Before (state2.heap 1).Time ∧
    Cron.Search state2 "a" = some 0 ∧ Cron.Search state2 "b" = some 1 ∧
    (∀ iter, IsIterOrder state2 iter → Cron.Entries state2 iter = some [1, 0]) := by
  refine ⟨by decide, by decide, by decide, ?_⟩
  intro iter hiter
  have hv : state2.cron.values = [1, 0] := by decide
  unfold IsIterOrder at hiter
  rw [hv] at hiter
  have hlen := hiter.length_eq
  match iter, hiter, hlen with
  | [x, y], hp, _ =>
    have hx : x ∈ [1, 0] := hp.subset (List.mem_cons_self _ _)
    have hy : y ∈ [1, 0] := hp.subset (List.mem_cons_of_mem _ (List.mem_cons_self _ _))
    have hnd : [x, y].Nodup := hp.nodup_iff.mpr (by decide)
    simp only [List.mem_cons, List.mem_singleton, List.not_mem_nil, or_false] at hx hy
    simp only [List.nodup_cons, List.mem_singleton, List.not_mem_nil, not_false_eq_true,
      List.nodup_nil, and_true] at hnd
    rcases hx with rfl | rfl <;> rcases hy with rfl | rfl
    · exact absurd rfl hnd
    · decide
    · decide
    · exact absurd rfl hnd

/-- C3: for every visiting order of the map, `Entries()` returns (without failing) a
rearrangement of the values of the entry map: its length is `Size()`, every entry occurs
as many times as it is stored (once, when no entry is stored under two names), also
when timestamps are equal; and the call leaves the state as it was. -/
theorem Entries_is_permutation_of_map_values (d : Deps) (s : State) (iter : List EntryRef)
    (hiter : IsIterOrder s iter) :
    ∃ out, Cron.Entries s iter = some out ∧
      out.Perm s.cron.values ∧
      (out.length : Int) = Cron.Size s ∧
      (∀ e, out.count e = s.cron.values.count e) ∧
      (s.cron.values.Nodup → out.Nodup) ∧
      step d s (Op.Entries iter) = s := by
  obtain ⟨out, hout, hperm⟩ := Entries_fold_perm s.heap iter []
  have hp : out.Perm s.cron.values := by
    simp only [List.nil_append] at hperm
    exact hperm.trans hiter
  refine ⟨out, hout, hp, ?_, fun e => hp.count_eq e, fun h => hp.nodup_iff.mpr h, rfl⟩
  rw [hp.length_eq]
  simp [Cron.values, Cron.Size]

/-- Witness for C3: in `state2`, visiting "a" then "b", `Entries()` returns both entries. -/
theorem Entries_is_permutation_of_map_values_witness :
    IsIterOrder state2 [0, 1] ∧
    ∃ out, Cron.Entries state2 [0, 1] = some out ∧ out.Perm state2.cron.values ∧
      (out.length : Int) = Cron.Size state2 :=
  ⟨by decide,
   (Entries_is_permutation_of_map_values deps0 state2 [0, 1] (by decide)).imp
     (fun _ h => ⟨h.1, h.2.1, h.2.2.1⟩)⟩

/-- C4, as stated, fails: on a fresh manager, `Close()` followed by `Start()` with no
names leaves the status `READY`, not `CLOSED`. -/
theorem Closed_is_left_by_Start_without_names :
    (Cron.Close state0).cron.status = STATUS_CLOSED ∧
    (run deps0 (Cron.Close state0) [Op.Start []]).cron.status = STATUS_READY ∧
    (run deps0 (Cron.Close state0) [Op.Start []]).cron.status ≠ STATUS_CLOSED := by
  decide

/-- C4, amended: once `Close()` has been called, the status is `CLOSED` after every
sequence of API calls that contains neither `Start()` with no names nor `Stop()` with
no names. -/
theorem Closed_kept_except_by_global_Start_Stop (d : Deps) (s : State) (ops : List Op)
    (hops : ∀ op ∈ ops, op ≠ Op.Start [] ∧ op ≠ Op.Stop []) :
    (run d (Cron.Close s) ops).cron.status = STATUS_CLOSED := by
  have key : ∀ (ops : List Op) (t : State), t.cron.status = STATUS_CLOSED →
      (∀ op ∈ ops, op ≠ Op.Start [] ∧ op ≠ Op.Stop []) →
      (run d t ops).cron.status = STATUS_CLOSED := by
    intro ops
    induction ops with
    | nil => intro t ht _; exact ht
    | cons op rest ih =>
      intro t ht h
      have hop := h op (List.mem_cons_self _ _)
      have hrest : ∀ o ∈ rest, o ≠ Op.Start [] ∧ o ≠ Op.Stop [] :=
        fun o ho => h o (List.mem_cons_of_mem _ ho)
      have hstep : (step d t op).cron.status = STATUS_CLOSED := by
        by_cases hc : op = Op.Close
        · subst hc; rfl
        · rw [step_status d t op hop.1 hop.2 hc]; exact ht
      exact ih (step d t op) hstep hrest
  exact key ops (Cron.Close s) rfl hops

/-- Witness for C4 (amended): a run through every kind of call but the two excluded. -/
theorem Closed_kept_except_by_global_Start_Stop_witness :
    (run deps0 (Cron.Close state2)
      [Op.Add ⟨3000000000⟩ "* * * * * *" 7 ["c"], Op.AddOnce ⟨3000000001⟩ "* * * * * *" 7 [],
       Op.Start ["a"], Op.Stop ["b", "zz"], Op.Remove "a", Op.Search "a", Op.Size,
       Op.Entries [0, 1], Op.SetLogPath "/tmp", Op.GetLogLevel, Op.Close]).cron.status
      = STATUS_CLOSED :=
  Closed_kept_except_by_global_Start_Stop deps0 state2 _ (by decide)

/-- C5: with at least one name, `Stop` (resp. `Start`) invokes the `Stop` (resp. `Start`)
capability on the entries found under the given names, one invocation per name that is
present, in argument order; names that are absent are skipped, and the entry map and the
status are untouched. -/
theorem Start_Stop_with_names_target_present_entries (s : State) (name : List String)
    (h : name ≠ []) :
    Cron.Stop s name = invokeAll Call.Stop s (name.filterMap (Cron.Search s)) ∧
    (Cron.Stop s name).trace
      = s.trace ++ (name.filterMap (Cron.Search s)).map (fun r => (r, Call.Stop)) ∧
    (Cron.Stop s name).cron = s.cron ∧
    Cron.Start s name = invokeAll Call.Start s (name.filterMap (Cron.Search s)) ∧
    (Cron.Start s name).trace
      = s.trace ++ (name.filterMap (Cron.Search s)).map (fun r => (r, Call.Start)) ∧
    (Cron.Start s name).cron = s.cron := by
  have hlen : name.length > 0 := List.length_pos.mpr h
  have e1 : Cron.Stop s name = invokeAll Call.Stop s (name.filterMap (Cron.Search s)) := by
    simp only [Cron.Stop, if_pos hlen, forNames_eq]
  have e2 : Cron.Start s name = invokeAll Call.Start s (name.filterMap (Cron.Search s)) := by
    simp only [Cron.Start, if_pos hlen, forNames_eq]
  refine ⟨e1, ?_, ?_, e2, ?_, ?_⟩
  · rw [e1, invokeAll_trace]
  · rw [e1, invokeAll_cron]
  · rw [e2, invokeAll_trace]
  · rw [e2, invokeAll_cron]

/-- Witness for C5: in `state2`, where "a" is present and "zz" is not, `Stop("a", "zz")`
invokes `Stop` once, on the entry of "a", which is then stopped. -/
theorem Start_Stop_with_names_target_present_entries_witness :
    ["a", "zz"] ≠ [] ∧
    (Cron.Stop state2 ["a", "zz"]).trace = [(0, Call.Stop)] ∧
    ((Cron.Stop state2 ["a", "zz"]).heap 0).status = STATUS_STOPPED :=
  ⟨by decide,
   (Start_Stop_with_names_target_present_entries state2 ["a", "zz"] (by decide)).2.1,
   by decide⟩

/-- C6: `Start()` and `Stop()` with no names write the status field and nothing else: the
trace of capability invocations, the heap of entries, the entry map and the other fields
are the same, and so are `Size()`, `Search(n)` for every `n` and `Entries()`. -/
theorem Start_Stop_without_names_frame (s : State) :
    (Cron.Start s [] = { s with cron := { s.cron with status := STATUS_READY } } ∧
      (Cron.Start s []).trace = s.trace ∧ (Cron.Start s []).heap = s.heap ∧
      (Cron.Start s []).cron.entries = s.cron.entries ∧
      Cron.Size (Cron.Start s []) = Cron.Size s ∧
      (∀ n, Cron.Search (Cron.Start s []) n = Cron.Search s n) ∧
      (∀ iter, Cron.Entries (Cron.Start s []) iter = Cron.Entries s iter)) ∧
    (Cron.Stop s [] = { s with cron := { s.cron with status := STATUS_STOPPED } } ∧
      (Cron.Stop s []).trace = s.trace ∧ (Cron.Stop s []).heap = s.heap ∧
      (Cron.Stop s []).cron.entries = s.cron.entries ∧
      Cron.Size (Cron.Stop s []) = Cron.Size s ∧
      (∀ n, Cron.Search (Cron.Stop s []) n = Cron.Search s n) ∧
      (∀ iter, Cron.Entries (Cron.Stop s []) iter = Cron.Entries s iter)) :=
  ⟨⟨rfl, rfl, rfl, rfl, rfl, fun _ => rfl, fun _ => rfl⟩,
   ⟨rfl, rfl, rfl, rfl, rfl, fun _ => rfl, fun _ => rfl⟩⟩

/-- C7: whatever the status was, it is `READY` after `Start()` with no names, `STOPPED`
after `Stop()` with no names, and `CLOSED` after `Close()`. -/
theorem status_transitions_unconditional (s : State) :
    (Cron.Start s []).cron.status = STATUS_READY ∧
    (Cron.Stop s []).cron.status = STATUS_STOPPED ∧
    (Cron.Close s).cron.status = STATUS_CLOSED :=
  ⟨rfl, rfl, rfl⟩

/-- C8: when `x` is present, `Remove(x)` invokes `Close` once, on the entry stored under
`x` and on no other; that entry reports a closed state afterwards and every other entry
is as before.  When `x` is absent, `Remove(x)` changes nothing. -/
theorem Remove_closes_the_named_entry (s : State) (x : String) :
    (∀ e, Cron.Search s x = some e →
      (Cron.Remove s x).trace = s.trace ++ [(e, Call.Close)] ∧
      ((Cron.Remove s x).heap e).IsClosed ∧
      (∀ r, r ≠ e → (Cron.Remove s x).heap r = s.heap r)) ∧
    (Cron.Search s x = none → Cron.Remove s x = s) := by
  constructor
  · intro e he
    have hr : Cron.Remove s x = invoke s e Call.Close := by
      unfold Cron.Search at he
      simp only [Cron.Remove, he]
    rw [hr]
    refine ⟨rfl, ?_, ?_⟩
    · simp [invoke, Call.apply, Entry.IsClosed]
    · intro r hne
      simp [invoke, Function.update, hne]
  · intro hn
    unfold Cron.Search at hn
    simp only [Cron.Remove, hn]

/-- Witness for C8: in `state2`, `Remove("a")` closes the entry of "a" and leaves the entry
of "b" alone, and `Remove("zz")` does nothing. -/
theorem Remove_closes_the_named_entry_witness :
    Cron.Search state2 "a" = some 0 ∧
    (Cron.Remove state2 "a").trace = state2.trace ++ [(0, Call.Close)] ∧
    ((Cron.Remove state2 "a").heap 0).IsClosed ∧
    (Cron.Remove state2 "a").heap 1 = state2.heap 1 ∧
    Cron.Search state2 "zz" = none ∧
    Cron.Remove state2 "zz" = state2 :=
  ⟨by decide,
   ((Remove_closes_the_named_entry state2 "a").1 0 (by decide)).1,
   ((Remove_closes_the_named_entry state2 "a").1 0 (by decide)).2.1,
   ((Remove_closes_the_named_entry state2 "a").1 0 (by decide)).2.2 1 (by decide),
   by decide,
   (Remove_closes_the_named_entry state2 "zz").2 (by decide)⟩

/-- C9: a manager returned by `New()`, in any memory, has status `RUNNING` and an empty
entry map: `Size()` is 0, `Search(n)` finds nothing for every `n`, and `Entries()` is the
empty sequence. -/
theorem New_is_running_and_empty (d : Deps) (heap : EntryRef → Entry) (next : EntryRef)
    (trace : List (EntryRef × Call)) (timers : List (Int × Deferred)) :
    (New d).status = STATUS_RUNNING ∧
    (New d).values = [] ∧
    Cron.Size ⟨New d, heap, next, trace, timers⟩ = 0 ∧
    (∀ n, Cron.Search ⟨New d, heap, next, trace, timers⟩ n = none) ∧
    (∀ iter, IsIterOrder ⟨New d, heap, next, trace, timers⟩ iter →
      Cron.Entries ⟨New d, heap, next, trace, timers⟩ iter = some []) := by
  refine ⟨rfl, rfl, rfl, fun _ => rfl, ?_⟩
  intro iter hiter
  have : iter = [] := List.Perm.eq_nil hiter
  subst this
  rfl

/-- C10: when `Add` succeeds with entry `e`, then `AddSingleton`, `AddOnce` and
`AddTimes(n)` on the same arguments return that same `e`, in the state that `Add`
produced followed by one invocation on `e`: `SetSingleton(true)`, `SetTimes(1)` and
`SetTimes(n)` respectively.  `AddOnce` is `AddTimes` with `1`. -/
theorem Add_variants_configure_the_added_entry (d : Deps) (s s1 : State) (now : Time)
    (pattern : String) (job : Job) (name : List String) (e : EntryRef)
    (hA : Cron.Add d s now pattern job name = (.ok e, s1)) :
    Cron.AddSingleton d s now pattern job name
      = (.ok e, invoke s1 e (Call.SetSingleton true)) ∧
    Cron.AddOnce d s now pattern job name = (.ok e, invoke s1 e (Call.SetTimes 1)) ∧
    (∀ n, Cron.AddTimes d s now pattern n job name = (.ok e, invoke s1 e (Call.SetTimes n))) ∧
    Cron.AddOnce d s now pattern job name = Cron.AddTimes d s now pattern 1 job name ∧
    ((invoke s1 e (Call.SetSingleton true)).heap e).singleton = true ∧
    (∀ n, ((invoke s1 e (Call.SetTimes n)).heap e).times = n) ∧
    (∀ k, (invoke s1 e k).trace = s1.trace ++ [(e, k)]) := by
  refine ⟨?_, ?_, ?_, rfl, ?_, ?_, fun _ => rfl⟩
  · simp only [Cron.AddSingleton, hA]
  · simp only [Cron.AddOnce, hA]
  · intro n; simp only [Cron.AddTimes, hA]
  · simp [invoke, Call.apply]
  · intro n; simp [invoke, Call.apply]

/-- Witness for C10: in `state2` the name "c" is free, `Add` succeeds, and `AddOnce`
returns the entry that `Add` returns, with run count 1. -/
theorem Add_variants_configure_the_added_entry_witness :
    ∃ e s1, Cron.Add deps0 state2 ⟨3000000000⟩ "* * * * * *" 7 ["c"] = (.ok e, s1) ∧
      Cron.AddOnce deps0 state2 ⟨3000000000⟩ "* * * * * *" 7 ["c"]
        = (.ok e, invoke s1 e (Call.SetTimes 1)) ∧
      ((Cron.AddOnce deps0 state2 ⟨3000000000⟩ "* * * * * *" 7 ["c"]).2.heap e).times = 1 :=
  ⟨_, _, rfl,
   (Add_variants_configure_the_added_entry deps0 state2 _ ⟨3000000000⟩ "* * * * * *" 7 ["c"]
      _ rfl).2.1,
   by decide⟩

/-- C11: `AddSingleton`, `AddOnce` and `AddTimes` fail exactly when `Add` fails on the same
arguments and state; they then return the error of `Add` and leave the state that `Add`
left, so no `SetSingleton` or `SetTimes` is invoked.  With a name that is already
present the result is the duplicate-name error and the state, the existing entry
included, is the one they were called in. -/
theorem Add_variants_fail_exactly_as_Add (d : Deps) (s : State) (now : Time)
    (pattern : String) (times : Int) (job : Job) (name : List String) :
    (∀ err s1, Cron.Add d s now pattern job name = (.error err, s1) →
      Cron.AddSingleton d s now pattern job name = (.error err, s1) ∧
      Cron.AddOnce d s now pattern job name = (.error err, s1) ∧
      Cron.AddTimes d s now pattern times job name = (.error err, s1)) ∧
    (((∃ err, (Cron.AddSingleton d s now pattern job name).1 = .error err) ↔
        ∃ err, (Cron.Add d s now pattern job name).1 = .error err) ∧
      ((∃ err, (Cron.AddOnce d s now pattern job name).1 = .error err) ↔
        ∃ err, (Cron.Add d s now pattern job name).1 = .error err) ∧
      ((∃ err, (Cron.AddTimes d s now pattern times job name).1 = .error err) ↔
        ∃ err, (Cron.Add d s now pattern job name).1 = .error err)) ∧
    (∀ n rest x, name = n :: rest → Cron.Search s n = some x →
      Cron.AddSingleton d s now pattern job name = (.error (dupError n), s) ∧
      Cron.AddOnce d s now pattern job name = (.error (dupError n), s) ∧
      Cron.AddTimes d s now pattern times job name = (.error (dupError n), s)) := by
  have herr : ∀ err s1, Cron.Add d s now pattern job name = (.error err, s1) →
      Cron.AddSingleton d s now pattern job name = (.error err, s1) ∧
      Cron.AddOnce d s now pattern job name = (.error err, s1) ∧
      Cron.AddTimes d s now pattern times job name = (.error err, s1) := by
    intro err s1 hA
    refine ⟨?_, ?_, ?_⟩
    · simp only [Cron.AddSingleton, hA]
    · simp only [Cron.AddOnce, hA]
    · simp only [Cron.AddTimes, hA]
  refine ⟨herr, ?_, ?_⟩
  · rcases hA : Cron.Add d s now pattern job name with ⟨res, s1⟩
    cases res with
    | error err =>
      obtain ⟨h1, h2, h3⟩ := herr err s1 hA
      rw [h1, h2, h3]
      simp
    | ok e =>
      simp [Cron.AddSingleton, Cron.AddOnce, Cron.AddTimes, hA]
  · intro n rest x hname hx
    subst hname
    have hA : Cron.Add d s now pattern job (n :: rest) = (.error (dupError n), s) := by
      simp [Cron.Add, hx]
    exact herr _ _ hA

/-- Witness for C11: in `state2` the name "a" is taken, and `AddTimes` with it fails with
the error of `Add` and leaves the state, with the run count of the entry of "a", as
it was. -/
theorem Add_variants_fail_exactly_as_Add_witness :
    Cron.Search state2 "a" = some 0 ∧
    Cron.AddTimes deps0 state2 ⟨3000000000⟩ "* * * * * *" 5 7 ["a"]
      = (.error (dupError "a"), state2) ∧
    ((Cron.AddTimes deps0 state2 ⟨3000000000⟩ "* * * * * *" 5 7 ["a"]).2.heap 0).times
      = 2147483647 :=
  ⟨by decide,
   ((Add_variants_fail_exactly_as_Add deps0 state2 ⟨3000000000⟩ "* * * * * *" 5 7
      ["a"]).2.2 "a" [] 0 rfl (by decide)).2.2,
   by decide⟩

/-- C12: each of `DelayAdd`, `DelayAddSingleton`, `DelayAddOnce` and `DelayAddTimes`
registers one callback with the timer and changes nothing else.  When the callback runs,
in whatever state the registry is then, it leaves the state that the corresponding
`Add`, `AddSingleton`, `AddOnce` or `AddTimes` call leaves; it panics with the error
exactly when that call returns an error, and does not panic exactly when it succeeds. -/
theorem DelayAdd_registers_callback_that_panics_iff_Add_fails (d : Deps) (s t : State)
    (delay : Int) (now : Time) (pattern : String) (times : Int) (job : Job)
    (name : List String) (cb : Deferred) :
    (Cron.DelayAdd s delay pattern job name
        = { s with timers := s.timers ++ [(delay, Deferred.Add pattern job name)] } ∧
      Cron.DelayAddSingleton s delay pattern job name
        = { s with timers := s.timers ++ [(delay, Deferred.AddSingleton pattern job name)] } ∧
      Cron.DelayAddOnce s delay pattern job name
        = { s with timers := s.timers ++ [(delay, Deferred.AddOnce pattern job name)] } ∧
      Cron.DelayAddTimes s delay pattern times job name
        = { s with timers :=
              s.timers ++ [(delay, Deferred.AddTimes pattern times job name)] }) ∧
    (Deferred.call d t now (Deferred.Add pattern job name)
        = Cron.Add d t now pattern job name ∧
      Deferred.call d t now (Deferred.AddSingleton pattern job name)
        = Cron.AddSingleton d t now pattern job name ∧
      Deferred.call d t now (Deferred.AddOnce pattern job name)
        = Cron.AddOnce d t now pattern job name ∧
      Deferred.call d t now (Deferred.AddTimes pattern times job name)
        = Cron.AddTimes d t now pattern times job name) ∧
    (Deferred.fire d t now cb).2 = (Deferred.call d t now cb).2 ∧
    (∀ err, (Deferred.fire d t now cb).1 = some err ↔
      (Deferred.call d t now cb).1 = .error err) ∧
    ((Deferred.fire d t now cb).1 = none ↔ ∃ e, (Deferred.call d t now cb).1 = .ok e) := by
  refine ⟨⟨rfl, rfl, rfl, rfl⟩, ⟨rfl, rfl, rfl, rfl⟩, ?_, ?_, ?_⟩
  · rw [fire_eq_call]
  · intro err
    rw [fire_eq_call]
    cases (Deferred.call d t now cb).1 <;> simp
  · rw [fire_eq_call]
    cases (Deferred.call d t now cb).1 <;> simp

/-- Witness for C12: `DelayAdd` for the name "a" on the fresh manager registers one
callback and leaves the map empty; if "a" is present when the callback runs (as in
`state2`) it panics with the duplicate-name error, and if it runs on the fresh manager
it does not panic and "a" is registered. -/
theorem DelayAdd_registers_callback_that_panics_iff_Add_fails_witness :
    (Cron.DelayAdd state0 1000000000 "* * * * * *" 7 ["a"]).timers
      = [(1000000000, Deferred.Add "* * * * * *" 7 ["a"])] ∧
    Cron.Size (Cron.DelayAdd state0 1000000000 "* * * * * *" 7 ["a"]) = 0 ∧
    (Deferred.fire deps0 state2 ⟨3000000000⟩ (Deferred.Add "* * * * * *" 7 ["a"])).1
      = some (dupError "a") ∧
    (Deferred.fire deps0 state0 ⟨3000000000⟩ (Deferred.Add "* * * * * *" 7 ["a"])).1 = none ∧
    Cron.Search
      (Deferred.fire deps0 state0 ⟨3000000000⟩ (Deferred.Add "* * * * * *" 7 ["a"])).2 "a"
      = some 0 :=
  ⟨by rfl, by decide,
   ((DelayAdd_registers_callback_that_panics_iff_Add_fails deps0 state0 state2 0
      ⟨3000000000⟩ "" 0 0 [] (Deferred.Add "* * * * * *" 7 ["a"])).2.2.2.1 _).mpr rfl,
   by rfl, by decide⟩

/-- C14: the log settings are a get/set pair: `GetLogPath` after `SetLogPath(p)` is `p`,
`GetLogLevel` after `SetLogLevel(l)` is `l`, and each setter leaves the status, the entry
map, the other setting and the rest of the state as they were. -/
theorem log_accessors_get_set (s : State) (p : String) (l : Int) :
    Cron.GetLogPath (Cron.SetLogPath s p) = p ∧
    Cron.GetLogLevel (Cron.SetLogLevel s l) = l ∧
    ((Cron.SetLogPath s p).cron.status = s.cron.status ∧
      (Cron.SetLogPath s p).cron.entries = s.cron.entries ∧
      Cron.GetLogLevel (Cron.SetLogPath s p) = Cron.GetLogLevel s ∧
      (Cron.SetLogPath s p).cron.idGen = s.cron.idGen ∧
      (Cron.SetLogPath s p).heap = s.heap ∧ (Cron.SetLogPath s p).trace = s.trace ∧
      (Cron.SetLogPath s p).timers = s.timers) ∧
    ((Cron.SetLogLevel s l).cron.status = s.cron.status ∧
      (Cron.SetLogLevel s l).cron.entries = s.cron.entries ∧
      Cron.GetLogPath (Cron.SetLogLevel s l) = Cron.GetLogPath s ∧
      (Cron.SetLogLevel s l).cron.idGen = s.cron.idGen ∧
      (Cron.SetLogLevel s l).heap = s.heap ∧ (Cron.SetLogLevel s l).trace = s.trace ∧
      (Cron.SetLogLevel s l).timers = s.timers) :=
  ⟨rfl, rfl, ⟨rfl, rfl, rfl, rfl, rfl, rfl, rfl⟩, ⟨rfl, rfl, rfl, rfl, rfl, rfl, rfl⟩⟩

/-- C15, as stated, fails: in `stateSame` the entries of "a" and "b" have the same
registration time.  `Entries()` compares "b" with "a" when it visits "a" first and "a"
with "b" when it visits "b" first; the search ends with the answer `-1` both times, so
the comparator reports each of the two entries before the other, and the order of the
result follows the order of the visit. -/
theorem Entries_comparator_reports_tied_entries_before_each_other :
    (Cron.Search stateSame "a" = some 0 ∧ Cron.Search stateSame "b" = some 1 ∧
      (stateSame.heap 0).Time = (stateSame.heap 1).Time) ∧
    (SortedArray.binSearch (entriesCompare stateSame.heap) [0] 1 = some (0, -1) ∧
      SortedArray.binSearch (entriesCompare stateSame.heap) [1] 0 = some (0, -1)) ∧
    (entriesCompare stateSame.heap 1 0 < 0 ∧ entriesCompare stateSame.heap 0 1 < 0) ∧
    (Cron.Entries stateSame [0, 1] = some [1, 0] ∧
      Cron.Entries stateSame [1, 0] = some [0, 1]) := by
  decide

/-- C15, amended: the comparator has two answers, `1` ("after") and `-1` ("before"), and
never answers `0`.  The answer "after" is never given in both directions, is matched by
"before" in the other direction, and is transitive.  The answer "before" is given in at
least one direction for every pair, and in both directions for two entries with the
same registration time (in particular for an entry and itself). -/
theorem Entries_comparator_two_valued_after_is_strict (heap : EntryRef → Entry)
    (e1 e2 e3 : EntryRef) :
    (entriesCompare heap e1 e2 = 1 ∨ entriesCompare heap e1 e2 = -1) ∧
    ¬ (entriesCompare heap e1 e2 = 1 ∧ entriesCompare heap e2 e1 = 1) ∧
    (entriesCompare heap e1 e2 = 1 → entriesCompare heap e2 e1 = -1) ∧
    (entriesCompare heap e1 e2 = 1 → entriesCompare heap e2 e3 = 1 →
      entriesCompare heap e1 e3 = 1) ∧
    (entriesCompare heap e1 e2 = -1 ∨ entriesCompare heap e2 e1 = -1) ∧
    ((heap e1).Time = (heap e2).Time →
      entriesCompare heap e1 e2 = -1 ∧ entriesCompare heap e2 e1 = -1) := by
  have key : ∀ a b,
      (entriesCompare heap a b = 1 ↔
        (heap a).Time.Nanosecond > (heap b).Time.Nanosecond) ∧
      (entriesCompare heap a b = -1 ↔
        (heap a).Time.Nanosecond ≤ (heap b).Time.Nanosecond) := by
    intro a b
    unfold entriesCompare
    by_cases h : (heap a).Time.Nanosecond > (heap b).Time.Nanosecond
    · rw [if_pos h]
      exact ⟨⟨fun _ => h, fun _ => rfl⟩,
        ⟨fun hh => absurd hh (by decide), fun hh => absurd h (not_lt.mpr hh)⟩⟩
    · rw [if_neg h]
      exact ⟨⟨fun hh => absurd hh (by decide), fun hh => absurd hh h⟩,
        ⟨fun _ => not_lt.mp h, fun _ => rfl⟩⟩
  refine ⟨?_, ?_, ?_, ?_, ?_, ?_⟩
  · rcases lt_or_le (heap e2).Time.Nanosecond (heap e1).Time.Nanosecond with h | h
    · exact Or.inl ((key e1 e2).1.mpr h)
    · exact Or.inr ((key e1 e2).2.mpr h)
  · intro ⟨h1, h2⟩
    exact absurd ((key e1 e2).1.mp h1) (not_lt.mpr (le_of_lt ((key e2 e1).1.mp h2)))
  · intro h1
    exact (key e2 e1).2.mpr (le_of_lt ((key e1 e2).1.mp h1))
  · intro h1 h2
    exact (key e1 e3).1.mpr (lt_trans ((key e2 e3).1.mp h2) ((key e1 e2).1.mp h1))
  · rcases le_total (heap e1).Time.Nanosecond (heap e2).Time.Nanosecond with h | h
    · exact Or.inl ((key e1 e2).2.mpr h)
    · exact Or.inr ((key e2 e1).2.mpr h)
  · intro heq
    exact ⟨(key e1 e2).2.mpr (by rw [heq]), (key e2 e1).2.mpr (by rw [heq])⟩

/-- Witness for C15 (amended): "a" and "b" of `stateSame` have the same registration
time, and the comparator answers `-1` for them in both directions. -/
theorem Entries_comparator_two_valued_after_is_strict_witness :
    (stateSame.heap 0).Time = (stateSame.heap 1).Time ∧
    entriesCompare stateSame.heap 0 1 = -1 ∧ entriesCompare stateSame.heap 1 0 = -1 :=
  ⟨by decide,
   (Entries_comparator_two_valued_after_is_strict stateSame.heap 0 1 0).2.2.2.2.2
     (by decide)⟩

/-- C16: when no name is supplied, or the first supplied name is not in the registry,
`Add` returns what entry construction returns for the same pattern, job and names with
the singleton flag off and the default run count, be it the entry or an error. -/
theorem Add_without_duplicate_is_addEntry (d : Deps) (s : State) (now : Time)
    (pattern : String) (job : Job) (name : List String)
    (h : ∀ n, name.head? = some n → Cron.Search s n = none) :
    Cron.Add d s now pattern job name
      = Cron.addEntry d s now pattern job false d.gDEFAULT_TIMES name := by
  unfold Cron.Add
  cases name with
  | nil => rfl
  | cons n rest =>
    have hn : Cron.Search s n = none := h n rfl
    simp only [hn, ne_eq, not_true_eq_false, if_false]

/-- Witness for C16: with no name and a pattern that the trigger engine rejects, `Add`
returns the error of entry construction; with the free name "c" it returns the entry
that was constructed. -/
theorem Add_without_duplicate_is_addEntry_witness :
    (Cron.Add depsStrict state2 ⟨3000000000⟩ "" 7 []
        = Cron.addEntry depsStrict state2 ⟨3000000000⟩ "" 7 false
            depsStrict.gDEFAULT_TIMES [] ∧
      (Cron.addEntry depsStrict state2 ⟨3000000000⟩ "" 7 false
          depsStrict.gDEFAULT_TIMES []).1 = .error "invalid pattern") ∧
    (Cron.Search state2 "c" = none ∧
      Cron.Add depsStrict state2 ⟨3000000000⟩ "* * * * * *" 7 ["c"]
        = Cron.addEntry depsStrict state2 ⟨3000000000⟩ "* * * * * *" 7 false
            depsStrict.gDEFAULT_TIMES ["c"] ∧
      (Cron.addEntry depsStrict state2 ⟨3000000000⟩ "* * * * * *" 7 false
          depsStrict.gDEFAULT_TIMES ["c"]).1 = .ok 2) :=
  ⟨⟨Add_without_duplicate_is_addEntry depsStrict state2 ⟨3000000000⟩ "" 7 []
      (by intro n hn; cases hn), rfl⟩,
   ⟨by decide,
    Add_without_duplicate_is_addEntry depsStrict state2 ⟨3000000000⟩ "* * * * * *" 7 ["c"]
      (by intro n hn; cases hn; decide), rfl⟩⟩

/-- C17: the status is written by `Start()` and `Stop()` with no names and by `Close()`
only.  Every other API call leaves it as it was, among them `Add`, `AddSingleton`,
`AddOnce`, `AddTimes`, `Remove`, the log setters, and `Start` and `Stop` with at least
one name. -/
theorem status_written_only_by_global_Start_Stop_Close (d : Deps) (s : State) (op : Op)
    (h1 : op ≠ Op.Start []) (h2 : op ≠ Op.Stop []) (h3 : op ≠ Op.Close) :
    (step d s op).cron.status = s.cron.status ∧
    (∀ now pattern job name,
      (Cron.Add d s now pattern job name).2.cron.status = s.cron.status ∧
      (Cron.AddSingleton d s now pattern job name).2.cron.status = s.cron.status ∧
      (Cron.AddOnce d s now pattern job name).2.cron.status = s.cron.status) ∧
    (∀ now pattern times job name,
      (Cron.AddTimes d s now pattern times job name).2.cron.status = s.cron.status) ∧
    (∀ v rest, (Cron.Start s (v :: rest)).cron.status = s.cron.status ∧
      (Cron.Stop s (v :: rest)).cron.status = s.cron.status) ∧
    (∀ x, (Cron.Remove s x).cron.status = s.cron.status) ∧
    (∀ p, (Cron.SetLogPath s p).cron.status = s.cron.status) ∧
    (∀ l, (Cron.SetLogLevel s l).cron.status = s.cron.status) := by
  refine ⟨step_status d s op h1 h2 h3, ?_, ?_, ?_, ?_, fun _ => rfl, fun _ => rfl⟩
  · intro now pattern job name
    exact ⟨Add_status .., AddSingleton_status .., AddOnce_status ..⟩
  · intro now pattern times job name
    exact AddTimes_status ..
  · intro v rest
    exact ⟨step_status d s (Op.Start (v :: rest)) (by simp) (by simp) (by simp),
      step_status d s (Op.Stop (v :: rest)) (by simp) (by simp) (by simp)⟩
  · intro x
    rw [Remove_cron]

/-- Witness for C17: from the stopped `state2`, `Start("a")` leaves the status stopped. -/
theorem status_written_only_by_global_Start_Stop_Close_witness :
    (step deps0 (Cron.Stop state2 []) (Op.Start ["a"])).cron.status = STATUS_STOPPED :=
  (status_written_only_by_global_Start_Stop_Close deps0 (Cron.Stop state2 [])
    (Op.Start ["a"]) (by decide) (by decide) (by decide)).1

/-- C18: for every order in which the map is visited, `Entries()` returns (without
failing) a sequence that is non-decreasing in `Time.Nanosecond()`, the key the comparator
reads: at positions `i < j` the key at `i` is at most the key at `j`, and every key lies
in `0 .. 999999999`. -/
theorem Entries_sorted_by_nanosecond (s : State) (iter : List EntryRef) :
    ∃ out, Cron.Entries s iter = some out ∧
      (∀ (i j : Nat) (hi : i < out.length) (hj : j < out.length), i < j →
        (s.heap out[i]).Time.Nanosecond ≤ (s.heap out[j]).Time.Nanosecond) ∧
      (∀ e ∈ out, 0 ≤ (s.heap e).Time.Nanosecond ∧
        (s.heap e).Time.Nanosecond ≤ 999999999) := by
  obtain ⟨out, hout, hsorted⟩ := Entries_fold_sorted s.heap iter [] List.Pairwise.nil
  refine ⟨out, hout, ?_, fun e _ => Nanosecond_range _⟩
  intro i j hi hj hij
  exact List.pairwise_iff_getElem.mp hsorted i j hi hj hij

/-- Witness for C18: in `stateTie` both entries have the key 500000000, and `Entries()`
returns the two of them, in the reverse of the order in which they were visited. -/
theorem Entries_sorted_by_nanosecond_witness :
    Cron.Entries stateTie [0, 1] = some [1, 0] ∧
    Cron.Entries stateTie [1, 0] = some [0, 1] ∧
    ∃ out, Cron.Entries stateTie [0, 1] = some out ∧
      ∀ e ∈ out, 0 ≤ (stateTie.heap e).Time.Nanosecond ∧
        (stateTie.heap e).Time.Nanosecond ≤ 999999999 :=
  ⟨by decide, by decide,
   (Entries_sorted_by_nanosecond stateTie [0, 1]).imp (fun _ h => ⟨h.1, h.2.2⟩)⟩

/-- C19: `Remove(x)` on a present name does not touch the entry map: the map, its names
and `Size()` are the same, every `Search` answers as before, and `Search(x)` still
returns the same entry, which is now closed. -/
theorem Remove_keeps_the_entry_map (s : State) (x : String) (e : EntryRef)
    (h : Cron.Search s x = some e) :
    (Cron.Remove s x).cron.entries = s.cron.entries ∧
    (Cron.Remove s x).cron.entries.keys = s.cron.entries.keys ∧
    Cron.Size (Cron.Remove s x) = Cron.Size s ∧
    (∀ n, Cron.Search (Cron.Remove s x) n = Cron.Search s n) ∧
    Cron.Search (Cron.Remove s x) x = some e ∧
    ((Cron.Remove s x).heap e).IsClosed := by
  have hc : (Cron.Remove s x).cron = s.cron := Remove_cron s x
  have hr : Cron.Remove s x = invoke s e Call.Close := by
    unfold Cron.Search at h
    simp only [Cron.Remove, h]
  refine ⟨by rw [hc], by rw [hc], ?_, ?_, ?_, ?_⟩
  · simp only [Cron.Size, hc]
  · intro n; simp only [Cron.Search, hc]
  · simp only [Cron.Search, hc]; exact h
  · rw [hr]; simp [invoke, Call.apply, Entry.IsClosed]

/-- Witness for C19: in `state2`, after `Remove("a")` the size is still 2 and `Search("a")`
still returns the entry of "a". -/
theorem Remove_keeps_the_entry_map_witness :
    Cron.Search state2 "a" = some 0 ∧
    Cron.Size (Cron.Remove state2 "a") = 2 ∧
    Cron.Search (Cron.Remove state2 "a") "a" = some 0 :=
  ⟨by decide,
   (Remove_keeps_the_entry_map state2 "a" 0 (by decide)).2.2.1.trans (by decide),
   (Remove_keeps_the_entry_map state2 "a" 0 (by decide)).2.2.2.2.1⟩

end Gcron
